import Mathlib

/-!
Shallow embedding of the bulk file-record operations of `restish`
(`bulk/file.go`): the JSON canonicalizer (`reformat`), the fingerprint
(`hash`), and the per-file operations `GetData`, `IsChangedLocal`, `Fetch`,
`WriteCached`, `Write` and `Reset`, over an explicit association-list
filesystem. Byte buffers are modelled as `String` (the contents are UTF-8
JSON text throughout).
-/

namespace Bulk

/-- The generic tree produced by Go's `encoding/json` unmarshalling into
`any`: nil, bool, number, string, `[]any`, `map[string]any`. Numbers are
modelled as integers (fractional and exponent literals are not exercised by
any claim); object fields keep their original order, matching the spec's
order-preserving canonical formatter. -/
inductive JSON where
  | null
  | bool (b : Bool)
  | num (n : Int)
  | str (s : String)
  | arr (elems : List JSON)
  | obj (fields : List (String × JSON))

/-- Whitespace characters accepted between JSON tokens. -/
def isWsChar (c : Char) : Bool :=
  c = ' ' || c = '\t' || c = '\n' || c = '\r'

/-- Drop leading JSON whitespace. -/
def skipWs : List Char → List Char
  | [] => []
  | c :: cs => if isWsChar c then skipWs cs else c :: cs

def isDigitChar (c : Char) : Bool :=
  '0' ≤ c && c ≤ '9'

/-- Accumulate a run of decimal digits. -/
def digitsToNat (acc : Nat) : List Char → Nat × List Char
  | [] => (acc, [])
  | c :: cs =>
    if isDigitChar c then digitsToNat (acc * 10 + (c.toNat - '0'.toNat)) cs
    else (acc, c :: cs)

/-- Parse a JSON natural-number literal (no leading zeros, per RFC 8259 and
Go's scanner). -/
def parseNatLit : List Char → Option (Nat × List Char)
  | [] => none
  | c :: cs =>
    if c = '0' then
      match cs with
      | [] => some (0, [])
      | d :: _ => if isDigitChar d then none else some (0, cs)
    else if isDigitChar c then some (digitsToNat (c.toNat - '0'.toNat) cs)
    else none

/-- Decode one escape character after a backslash inside a JSON string.
The `\uXXXX` form is not modelled (no claim exercises it). -/
def escChar (e : Char) : Option Char :=
  if e = '"' then some '"'
  else if e = '\\' then some '\\'
  else if e = '/' then some '/'
  else if e = 'n' then some '\n'
  else if e = 't' then some '\t'
  else if e = 'r' then some '\r'
  else if e = 'b' then some (Char.ofNat 8)
  else if e = 'f' then some (Char.ofNat 12)
  else none

/-- Parse the body of a JSON string after the opening quote, up to and
including the closing quote. Unescaped control characters are rejected. -/
def parseStringBody : List Char → Option (String × List Char)
  | [] => none
  | c :: cs =>
    if c = '"' then some ("", cs)
    else if c = '\\' then
      match cs with
      | [] => none
      | e :: cs2 =>
        match escChar e with
        | none => none
        | some r =>
          match parseStringBody cs2 with
          | none => none
          | some (s, rest) => some (String.mk (r :: s.data), rest)
    else if c.toNat < 32 then none
    else
      match parseStringBody cs with
      | none => none
      | some (s, rest) => some (String.mk (c :: s.data), rest)

/-- Match a literal run of characters. -/
def stripToken (tok : List Char) (input : List Char) : Option (List Char) :=
  match tok, input with
  | [], rest => some rest
  | t :: ts, c :: cs => if c = t then stripToken ts cs else none
  | _ :: _, [] => none

def lbrace : Char := Char.ofNat 123

def rbrace : Char := Char.ofNat 125

mutual

/-- Recursive-descent JSON value parser with explicit fuel (every unit of
fuel spent corresponds to at least one consumed input character, so
`2 * length + 2` fuel always suffices). -/
def parseValue : Nat → List Char → Option (JSON × List Char)
  | 0, _ => none
  | Nat.succ fuel, input =>
    match skipWs input with
    | [] => none
    | c :: cs =>
      if c = 'n' then (stripToken ['u', 'l', 'l'] cs).map (fun r => (JSON.null, r))
      else if c = 't' then (stripToken ['r', 'u', 'e'] cs).map (fun r => (JSON.bool true, r))
      else if c = 'f' then (stripToken ['a', 'l', 's', 'e'] cs).map (fun r => (JSON.bool false, r))
      else if c = '"' then (parseStringBody cs).map (fun p => (JSON.str p.1, p.2))
      else if c = '-' then
        match parseNatLit cs with
        | some (n, r) => some (JSON.num (-(n : Int)), r)
        | none => none
      else if isDigitChar c then
        match parseNatLit (c :: cs) with
        | some (n, r) => some (JSON.num (n : Int), r)
        | none => none
      else if c = '[' then
        match skipWs cs with
        | d :: ds =>
          if d = ']' then some (JSON.arr [], ds)
          else (parseElems fuel (d :: ds)).map (fun p => (JSON.arr p.1, p.2))
        | [] => none
      else if c = lbrace then
        match skipWs cs with
        | d :: ds =>
          if d = rbrace then some (JSON.obj [], ds)
          else (parseFields fuel (d :: ds)).map (fun p => (JSON.obj p.1, p.2))
        | [] => none
      else none

/-- Parse `value (',' value)* ']'` after an opening bracket. -/
def parseElems : Nat → List Char → Option (List JSON × List Char)
  | 0, _ => none
  | Nat.succ fuel, input =>
    match parseValue fuel input with
    | none => none
    | some (v, rest) =>
      match skipWs rest with
      | c :: cs =>
        if c = ',' then (parseElems fuel cs).map (fun p => (v :: p.1, p.2))
        else if c = ']' then some ([v], cs)
        else none
      | [] => none

/-- Parse `string ':' value (',' pair)* close-brace` after an opening brace. -/
def parseFields : Nat → List Char → Option (List (String × JSON) × List Char)
  | 0, _ => none
  | Nat.succ fuel, input =>
    match skipWs input with
    | c :: cs =>
      if c = '"' then
        match parseStringBody cs with
        | none => none
        | some (k, rest) =>
          match skipWs rest with
          | d :: ds =>
            if d = ':' then
              match parseValue fuel ds with
              | none => none
              | some (v, rest2) =>
                match skipWs rest2 with
                | e :: es =>
                  if e = ',' then (parseFields fuel es).map (fun p => ((k, v) :: p.1, p.2))
                  else if e = rbrace then some ([(k, v)], es)
                  else none
                | [] => none
            else none
          | [] => none
      else none
    | [] => none

end

/-- Go `json.Unmarshal` on a whole buffer: the input must be a single JSON
value surrounded only by whitespace. Returns `none` on invalid input (Go's
`checkValid` rejects the document before any assignment happens). -/
def parseJSON (data : String) : Option JSON :=
  match parseValue (2 * data.length + 2) data.data with
  | some (v, rest) => if skipWs rest = [] then some v else none
  | none => none

def hexDigitChar (n : Nat) : Char :=
  if n < 10 then Char.ofNat ('0'.toNat + n) else Char.ofNat ('a'.toNat + n - 10)

/-- Escape one character for emission inside a JSON string literal. -/
def escapeCharJSON (c : Char) : String :=
  if c = '"' then "\\\""
  else if c = '\\' then "\\\\"
  else if c = '\n' then "\\n"
  else if c = '\t' then "\\t"
  else if c = '\r' then "\\r"
  else if c.toNat < 32 then
    "\\u00" ++ String.mk [hexDigitChar (c.toNat / 16), hexDigitChar (c.toNat % 16)]
  else String.singleton c

/-- Emit a JSON string literal. -/
def encodeString (s : String) : String :=
  "\"" ++ String.join (s.data.map escapeCharJSON) ++ "\""

mutual

/-- Modelled from the spec: the deterministic JSON canonical formatter behind
`cli.MarshalShort` (restish `cli` package, outside the provided sources). It
re-emits a parsed value with a single fixed layout, preserving the original
object key order as the spec requires; the concrete layout chosen here is the
compact one. -/
def serialize : JSON → String
  | JSON.null => "null"
  | JSON.bool b => cond b "true" "false"
  | JSON.num n => toString n
  | JSON.str s => encodeString s
  | JSON.arr es => "[" ++ serializeElems es ++ "]"
  | JSON.obj fs => "\x7b" ++ serializeFields fs ++ "\x7d"

def serializeElems : List JSON → String
  | [] => ""
  | [v] => serialize v
  | v :: rest => serialize v ++ "," ++ serializeElems rest

def serializeFields : List (String × JSON) → String
  | [] => ""
  | [kv] => encodeString kv.1 ++ ":" ++ serialize kv.2
  | kv :: rest => encodeString kv.1 ++ ":" ++ serialize kv.2 ++ "," ++ serializeFields rest

end

/-- Modelled from the spec: `cli.MarshalShort("json", true, v)` — the JSON
canonical formatter. The spec ranks it an external collaborator that "takes
any parsed value and returns a deterministic byte representation", so on the
generic trees produced by unmarshalling it always succeeds; the `Except`
mirrors the Go `([]byte, error)` signature. -/
def MarshalShort (v : JSON) : Except String String :=
  Except.ok (serialize v)

/-- Go `var tmp any; json.Unmarshal(data, &tmp)` as written in `reformat`:
the returned error is discarded, so on invalid input `tmp` keeps its zero
value nil. -/
def jsonUnmarshal (data : String) : JSON :=
  match parseJSON data with
  | some v => v
  | none => JSON.null

/-- `reformat` (bulk/file.go lines 20-27): round-trip the buffer through
`json.Unmarshal` (error discarded) and `cli.MarshalShort`. -/
def reformat (data : String) : Except String String :=
  MarshalShort (jsonUnmarshal data)

/-- Modelled from the spec: the 128-bit fingerprint `xxh3.Hash128` (external
library `github.com/zeebo/xxh3`). The spec's change detection uses only
whether two fingerprints are equal, and a 128-bit digest is a 16-byte string,
never empty; the model keeps exactly those properties by using an injective,
never-empty encoding of the input bytes. -/
def hash (b : String) : String :=
  "#" ++ b

/-- The in-memory filesystem (`afs`, an afero in-memory fs in the tests):
an association list from path to file contents, newest entry first. -/
abbrev FS := List (String × String)

/-- Read a file; `none` models the not-exist error. -/
def fsRead : FS → String → Option String
  | [], _ => none
  | (q, b) :: rest, p => if q = p then some b else fsRead rest p

/-- Write (create or overwrite) a file. -/
def fsWrite (fs : FS) (p : String) (b : String) : FS :=
  (p, b) :: fs

/-- Go `path.Join` as used on the clean relative segments in this package. -/
def pathJoin (a b : String) : String :=
  a ++ "/" ++ b

/-- Modelled from the spec: `metaDir`, the `.rshbulk` metadata directory
(defined in a bulk-package file outside the provided sources; consistent with
the literal used by `WriteCached`). -/
def metaDir : String := ".rshbulk"

/-- `File` (bulk/file.go lines 37-58). `Hash` is the `[]byte` fingerprint,
modelled as a string. -/
structure File where
  Path : String
  URL : String
  ETag : String
  LastModified : String
  VersionRemote : String
  VersionLocal : String
  Schema : String
  Hash : String
deriving DecidableEq, Repr

/-- `GetData` (bulk/file.go lines 61-63): read the working copy. -/
def File.GetData (fs : FS) (f : File) : Option String :=
  fsRead fs f.Path

/-- `IsChangedLocal` (bulk/file.go lines 68-84). -/
def File.IsChangedLocal (fs : FS) (f : File) (ignoreDeleted : Bool) : Bool :=
  if f.Hash.length = 0 then false
  else
    match f.GetData fs with
    | none => !ignoreDeleted
    | some b =>
      match reformat b with
      | Except.error _ => false
      | Except.ok rb => !(hash rb == f.Hash)

/-- `IsChangedRemote` (bulk/file.go lines 87-89). -/
def File.IsChangedRemote (f : File) : Bool :=
  f.VersionLocal != f.VersionRemote

/-- `Write` (bulk/file.go lines 151-155): set `Hash` to the fingerprint of
the raw bytes, then write the working copy. -/
def File.Write (fs : FS) (f : File) (b : String) : File × FS :=
  ({ f with Hash := hash b }, fsWrite fs f.Path b)

/-- `WriteCached` (bulk/file.go lines 143-147): write the reference copy
under `.rshbulk/<path>`. -/
def File.WriteCached (fs : FS) (f : File) (b : String) : FS :=
  fsWrite fs (pathJoin ".rshbulk" f.Path) b

/-- `Reset` (bulk/file.go lines 158-164): read the reference copy and write
it over the working copy via `Write`. -/
def File.Reset (fs : FS) (f : File) : Except String (File × FS) :=
  match fsRead fs (pathJoin metaDir f.Path) with
  | none => Except.error "file does not exist"
  | some cached => Except.ok (File.Write fs f cached)

/-- A Web Link relation as returned by the HTTP layer (`cli.Link`): only the
target URI matters here. -/
structure Link where
  URI : String
deriving DecidableEq, Repr

/-- The parsed HTTP response handed back by `cli.GetParsedResponse` (restish
`cli` package, outside the provided sources; modelled from the spec: status,
headers, decoded body tree, extracted Web Link relations). -/
structure Response where
  Status : Nat
  Headers : List (String × String)
  Links : List (String × List Link)
  Body : JSON

/-- Go map indexing `resp.Headers[k]`: the zero value "" when absent. -/
def headerGet (hs : List (String × String)) (k : String) : String :=
  match hs with
  | [] => ""
  | (q, v) :: rest => if q = k then v else headerGet rest k

/-- Go map indexing `resp.Links[k]`: the zero value nil slice when absent. -/
def linksGet (ls : List (String × List Link)) (k : String) : List Link :=
  match ls with
  | [] => []
  | (q, v) :: rest => if q = k then v else linksGet rest k

/-- The Go `reflect.Kind` values relevant to the `$schema` extraction. -/
inductive GoKind where
  | invalid
  | boolKind
  | floatKind
  | stringKind
  | interfaceKind
  | mapKind
  | sliceKind
deriving DecidableEq, Repr

/-- Kind of `reflect.ValueOf(resp.Body)`: `ValueOf` unwraps the interface and
exposes the dynamic type of the decoded tree; `ValueOf(nil)` is the zero
`reflect.Value`, whose kind is Invalid. -/
def reflectKind : JSON → GoKind
  | JSON.null => GoKind.invalid
  | JSON.bool _ => GoKind.boolKind
  | JSON.num _ => GoKind.floatKind
  | JSON.str _ => GoKind.stringKind
  | JSON.arr _ => GoKind.sliceKind
  | JSON.obj _ => GoKind.mapKind

/-- Kind of `v.MapIndex(reflect.ValueOf(k))` when `v` holds a decoded
`map[string]any`: the result carries the map's element type `interface`, so
its kind is Interface when the key is present and Invalid when it is absent —
in neither case String. -/
def mapIndexKind (fields : List (String × JSON)) (k : String) : GoKind :=
  match fields with
  | [] => GoKind.invalid
  | (q, _) :: rest => if q = k then GoKind.interfaceKind else mapIndexKind rest k

/-- `reflect.Value.String()` on a non-string kind does not panic; it returns
the placeholder `<T Value>`. For `v` of the body's map type this is the
constant below — the value line 123 of bulk/file.go would store. -/
def goMapValueString : String := "<map[string]interface \x7b\x7d Value>"

/-- Modelled from the spec: resolution of the `describedby` link URI against
the request URL (`net/url`'s `Parse`/`ResolveReference`, Go standard
library): an absolute URI replaces the base, a relative one is interpreted
against the base URL's enclosing directory. -/
def resolveReference (base ref : String) : String :=
  if (ref.splitOn "://").length ≥ 2 then ref
  else String.intercalate "/" ((base.splitOn "/").dropLast) ++ "/" ++ ref

/-- Lines 106-108 of bulk/file.go: adopt the Etag header when non-empty. -/
def applyEtag (f : File) (resp : Response) : File :=
  if headerGet resp.Headers "Etag" ≠ "" then
    { f with ETag := headerGet resp.Headers "Etag" }
  else f

/-- Lines 110-112 of bulk/file.go: adopt the Last-Modified header when
non-empty. -/
def applyLastModified (f : File) (resp : Response) : File :=
  if headerGet resp.Headers "Last-Modified" ≠ "" then
    { f with LastModified := headerGet resp.Headers "Last-Modified" }
  else f

/-- Lines 114-126 of bulk/file.go: set `Schema` from the `describedby` Web
Link when present; otherwise run the reflect-based `$schema` fallback, whose
kind test compares the Interface-or-Invalid kind of `MapIndex` with String
(and, were it ever to pass, would store `v.String()` of the map itself). -/
def applySchema (f : File) (resp : Response) : File :=
  match linksGet resp.Links "describedby" with
  | db :: _ => { f with Schema := resolveReference f.URL db.URI }
  | [] =>
    match resp.Body with
    | JSON.obj fields =>
      if mapIndexKind fields "$schema" = GoKind.stringKind then
        { f with Schema := goMapValueString }
      else f
    | _ => f

/-- The metadata updates of a successful fetch before the body is marshalled
(lines 106-126 of bulk/file.go, in source order). -/
def fetchUpdateMeta (f : File) (resp : Response) : File :=
  applySchema (applyLastModified (applyEtag f resp) resp) resp

/-- Outcome of `Fetch`: the Go `([]byte, error)` pair. -/
inductive FetchOutcome where
  | err (msg : String)
  | ok (body : String)
deriving DecidableEq, Repr

/-- Record, filesystem and return value after a `Fetch`. -/
structure FetchResult where
  file : File
  fs : FS
  ret : FetchOutcome
deriving DecidableEq, Repr

/-- `Fetch` (bulk/file.go lines 92-140). `resp?` is the outcome of
`cli.GetParsedResponse` (`none` models a transport error) and `cacheWriteOK`
injects the success of the `afero.WriteFile` inside `WriteCached` (`false`
models a disk error, which writes nothing). -/
def File.Fetch (fs : FS) (f : File) (resp? : Option Response) (cacheWriteOK : Bool) :
    FetchResult :=
  match resp? with
  | none => ⟨f, fs, FetchOutcome.err "transport error"⟩
  | some resp =>
    if 400 ≤ resp.Status then
      ⟨f, fs, FetchOutcome.err ("error fetching " ++ f.URL)⟩
    else
      let f3 := fetchUpdateMeta f resp
      match MarshalShort resp.Body with
      | Except.error e => ⟨f3, fs, FetchOutcome.err e⟩
      | Except.ok b =>
        let f4 := { f3 with VersionLocal := f3.VersionRemote }
        if cacheWriteOK then
          ⟨f4, File.WriteCached fs f4 b, FetchOutcome.ok b⟩
        else
          ⟨f4, fs, FetchOutcome.err "cache write error"⟩

deriving instance DecidableEq for Except

/-- The behavior claim C4 states for `IsChangedLocal`, written from the
claim's words rather than from the source (for comparison against the code):
changed iff the hash is recorded and either the working copy is absent with
`ignoreDeleted` false, or it parses as JSON and the fingerprint of its
canonicalized bytes differs from the recorded hash. -/
def isChangedLocalClaimed (fs : FS) (f : File) (ignoreDeleted : Bool) : Bool :=
  (f.Hash != "") &&
    (((f.GetData fs).isNone && !ignoreDeleted) ||
      (match f.GetData fs with
       | none => false
       | some b =>
         match parseJSON b with
         | none => false
         | some v => hash (serialize v) != f.Hash))

/-- A record that has never been written: empty hash, empty metadata. -/
def freshFile : File :=
  ⟨"a.json", "https://example.com/a", "", "", "", "", "", ""⟩

/-- A record whose hash was recorded for content canonicalizing to `"x"`. -/
def badFile : File :=
  ⟨"p.json", "https://example.com/p", "", "", "", "", "", hash "\"x\""⟩

/-- A record used by the Reset witness. -/
def resetFile : File :=
  ⟨"p.json", "https://example.com/p", "", "", "", "", "", ""⟩

/-- A populated record used by the Fetch witnesses. -/
def sampleFile : File :=
  ⟨"a/items/a1.json", "https://example.com/users/a/items/a1", "W/1", "Mon",
   "v2", "v1", "", hash "old"⟩

/-- An HTTP 500 response. -/
def errorResp : Response :=
  ⟨500, [], [], JSON.null⟩

/-- A successful response carrying both conditional headers. -/
def etagResp : Response :=
  ⟨200, [("Etag", "W/2"), ("Last-Modified", "Tue")], [], JSON.obj [("id", JSON.str "a1")]⟩

/-- A successful response carrying no headers and no links. -/
def plainResp : Response :=
  ⟨200, [], [], JSON.obj [("id", JSON.str "a1")]⟩

/-- A successful response with no describedby link whose body is a map with a
string-valued `$schema` field. -/
def schemaResp : Response :=
  ⟨200, [], [], JSON.obj [("$schema", JSON.str "https://example.com/s.json")]⟩

theorem fsRead_fsWrite_self (fs : FS) (p b : String) :
    fsRead (fsWrite fs p b) p = some b := by
  simp [fsRead, fsWrite]

theorem fsRead_fsWrite_ne (fs : FS) (p q b : String) (h : p ≠ q) :
    fsRead (fsWrite fs p b) q = fsRead fs q := by
  simp [fsRead, fsWrite, h]

theorem hash_length (b : String) : (hash b).length = b.length + 1 := by
  have h1 : ("#" : String).length = 1 := rfl
  unfold hash
  rw [String.length_append, h1]
  omega

theorem pathJoin_rshbulk_ne (p : String) : pathJoin ".rshbulk" p ≠ p := by
  intro h
  have hlen := congrArg String.length h
  have h9 : (".rshbulk" : String).length = 8 := rfl
  have h1 : ("/" : String).length = 1 := rfl
  rw [pathJoin, String.length_append, String.length_append, h9, h1] at hlen
  omega

/-- C1 as stated is refuted at the non-canonical input bytes `" {}"`: `Write`
stores the fingerprint of the raw bytes, so the fingerprint of the
canonicalized read-back (`"{}"`) differs from the stored hash. -/
theorem write_canonical_roundtrip_cex :
    fsRead (File.Write [] freshFile " \x7b\x7d").2 (File.Write [] freshFile " \x7b\x7d").1.Path
      = some " \x7b\x7d" ∧
    reformat " \x7b\x7d" = Except.ok "\x7b\x7d" ∧
    hash "\x7b\x7d" ≠ (File.Write [] freshFile " \x7b\x7d").1.Hash := by
  decide

/-- C1 (amended): restricted to already-canonical written bytes — for every
`b` with `reformat b = ok b`, immediately after `Write b` the stored hash
equals the fingerprint of the canonicalized bytes read back from the working
copy. -/
theorem write_canonical_roundtrip (fs : FS) (f : File) (b : String)
    (hb : reformat b = Except.ok b) :
    fsRead (File.Write fs f b).2 (File.Write fs f b).1.Path = some b ∧
    ∀ rb, reformat b = Except.ok rb → hash rb = (File.Write fs f b).1.Hash := by
  refine ⟨?_, ?_⟩
  · exact fsRead_fsWrite_self fs f.Path b
  · intro rb hrb
    rw [hb] at hrb
    injection hrb with h
    rw [← h]
    rfl

theorem write_canonical_roundtrip_witness :
    reformat "\x7b\x7d" = Except.ok "\x7b\x7d" ∧
    (fsRead (File.Write [] freshFile "\x7b\x7d").2 (File.Write [] freshFile "\x7b\x7d").1.Path
        = some "\x7b\x7d" ∧
      ∀ rb, reformat "\x7b\x7d" = Except.ok rb →
        hash rb = (File.Write [] freshFile "\x7b\x7d").1.Hash) :=
  ⟨by decide, write_canonical_roundtrip [] freshFile "\x7b\x7d" (by decide)⟩

/-- C2: the code refutes the claim. `reformat` discards `json.Unmarshal`'s
error, so unparseable working-copy bytes canonicalize to `"null"` with no
error (hence no warning: the warning branch fires only on a `reformat`
error), and `IsChangedLocal` reports the file as CHANGED for either value of
`ignoreDeleted`, not unchanged. -/
theorem unparseable_file_reported_changed :
    (parseJSON "not json").isNone = true ∧
    reformat "not json" = Except.ok "null" ∧
    File.IsChangedLocal [("p.json", "not json")] badFile false = true ∧
    File.IsChangedLocal [("p.json", "not json")] badFile true = true ∧
    badFile.Hash ≠ "" := by
  decide

/-- C4: the claimed iff-characterization of `IsChangedLocal` is refuted at a
record with a recorded hash whose working copy is present but unparseable:
the claim's right-hand side (written out in `isChangedLocalClaimed`) is
false there, yet the code returns true, comparing the recorded hash against
the fingerprint of canonical null. -/
theorem is_changed_local_characterization_fails :
    File.IsChangedLocal [("p.json", "not json")] badFile false = true ∧
    isChangedLocalClaimed [("p.json", "not json")] badFile false = false ∧
    (parseJSON "not json").isNone = true ∧
    (File.GetData [("p.json", "not json")] badFile).isSome = true ∧
    badFile.Hash ≠ "" := by
  decide

/-- C7 as stated is refuted: after a successful `Write` of the non-canonical
bytes `" {}"`, the identity edit (trivially canonicalization-preserving)
leaves the file reported as locally changed, because `Write` fingerprinted
the raw bytes rather than their canonical form. -/
theorem canonicalization_preserving_edit_cex :
    reformat " \x7b\x7d" = reformat " \x7b\x7d" ∧
    File.IsChangedLocal (File.Write [] freshFile " \x7b\x7d").2
      (File.Write [] freshFile " \x7b\x7d").1 false = true ∧
    File.IsChangedLocal (File.Write [] freshFile " \x7b\x7d").2
      (File.Write [] freshFile " \x7b\x7d").1 true = true :=
  ⟨rfl, by decide, by decide⟩

/-- C7 (amended): when the originally written bytes are canonical, every
canonicalization-preserving edit of the working copy leaves `IsChangedLocal`
false, for either value of `ignoreDeleted`. -/
theorem canonicalization_preserving_edit_unchanged (fs fs' : FS) (f : File) (b e : String)
    (d : Bool)
    (hb : reformat b = Except.ok b)
    (he : reformat e = reformat b)
    (hr : fsRead fs' (File.Write fs f b).1.Path = some e) :
    File.IsChangedLocal fs' (File.Write fs f b).1 d = false := by
  have hHash : (File.Write fs f b).1.Hash = hash b := rfl
  have hlen : ¬((File.Write fs f b).1.Hash.length = 0) := by
    rw [hHash, hash_length]
    omega
  unfold File.IsChangedLocal
  rw [if_neg hlen]
  have hget : (File.Write fs f b).1.GetData fs' = some e := hr
  rw [hget]
  simp [he, hb, hHash]

theorem canonicalization_preserving_edit_unchanged_witness :
    reformat "\x7b\x7d" = Except.ok "\x7b\x7d" ∧
    reformat " \x7b\x7d" = reformat "\x7b\x7d" ∧
    fsRead (fsWrite (File.Write [] freshFile "\x7b\x7d").2 "a.json" " \x7b\x7d")
        (File.Write [] freshFile "\x7b\x7d").1.Path = some " \x7b\x7d" ∧
    File.IsChangedLocal (fsWrite (File.Write [] freshFile "\x7b\x7d").2 "a.json" " \x7b\x7d")
        (File.Write [] freshFile "\x7b\x7d").1 false = false :=
  ⟨by decide, by decide, by decide,
    canonicalization_preserving_edit_unchanged [] _ freshFile "\x7b\x7d" " \x7b\x7d" false
      (by decide) (by decide) (by decide)⟩

theorem applyEtag_eq (f : File) (resp : Response) :
    applyEtag f resp =
      { f with ETag := if headerGet resp.Headers "Etag" ≠ "" then
          headerGet resp.Headers "Etag" else f.ETag } := by
  unfold applyEtag
  split <;> rfl

theorem applyLastModified_eq (f : File) (resp : Response) :
    applyLastModified f resp =
      { f with LastModified := if headerGet resp.Headers "Last-Modified" ≠ "" then
          headerGet resp.Headers "Last-Modified" else f.LastModified } := by
  unfold applyLastModified
  split <;> rfl

theorem applySchema_eq (f : File) (resp : Response) :
    ∃ s, applySchema f resp = { f with Schema := s } := by
  unfold applySchema
  cases linksGet resp.Links "describedby" with
  | cons db rest => exact ⟨_, rfl⟩
  | nil =>
    cases resp.Body with
    | obj fields =>
      refine ⟨if mapIndexKind fields "$schema" = GoKind.stringKind then goMapValueString
        else f.Schema, ?_⟩
      by_cases h : mapIndexKind fields "$schema" = GoKind.stringKind <;> simp [h]
    | null => exact ⟨f.Schema, rfl⟩
    | bool b => exact ⟨f.Schema, rfl⟩
    | num n => exact ⟨f.Schema, rfl⟩
    | str s => exact ⟨f.Schema, rfl⟩
    | arr es => exact ⟨f.Schema, rfl⟩

theorem fetchUpdateMeta_frame (f : File) (resp : Response) :
    (fetchUpdateMeta f resp).Path = f.Path ∧
    (fetchUpdateMeta f resp).URL = f.URL ∧
    (fetchUpdateMeta f resp).VersionRemote = f.VersionRemote ∧
    (fetchUpdateMeta f resp).VersionLocal = f.VersionLocal ∧
    (fetchUpdateMeta f resp).Hash = f.Hash := by
  unfold fetchUpdateMeta
  obtain ⟨s, hs⟩ := applySchema_eq (applyLastModified (applyEtag f resp) resp) resp
  rw [hs, applyLastModified_eq, applyEtag_eq]
  exact ⟨rfl, rfl, rfl, rfl, rfl⟩

theorem fetchUpdateMeta_ETag (f : File) (resp : Response) :
    (fetchUpdateMeta f resp).ETag =
      if headerGet resp.Headers "Etag" ≠ "" then headerGet resp.Headers "Etag"
      else f.ETag := by
  unfold fetchUpdateMeta
  obtain ⟨s, hs⟩ := applySchema_eq (applyLastModified (applyEtag f resp) resp) resp
  rw [hs, applyLastModified_eq, applyEtag_eq]

theorem fetchUpdateMeta_LastModified (f : File) (resp : Response) :
    (fetchUpdateMeta f resp).LastModified =
      if headerGet resp.Headers "Last-Modified" ≠ "" then
        headerGet resp.Headers "Last-Modified"
      else f.LastModified := by
  unfold fetchUpdateMeta
  obtain ⟨s, hs⟩ := applySchema_eq (applyLastModified (applyEtag f resp) resp) resp
  rw [hs, applyLastModified_eq, applyEtag_eq]

theorem fetch_success_eq (fs : FS) (f : File) (resp : Response) (c : Bool)
    (hs : resp.Status < 400) :
    File.Fetch fs f (some resp) c =
      if c then
        ⟨{ fetchUpdateMeta f resp with VersionLocal := (fetchUpdateMeta f resp).VersionRemote },
         fsWrite fs (pathJoin ".rshbulk" (fetchUpdateMeta f resp).Path) (serialize resp.Body),
         FetchOutcome.ok (serialize resp.Body)⟩
      else
        ⟨{ fetchUpdateMeta f resp with VersionLocal := (fetchUpdateMeta f resp).VersionRemote },
         fs, FetchOutcome.err "cache write error"⟩ := by
  have h : ¬(400 ≤ resp.Status) := by omega
  cases c <;> (unfold File.Fetch; simp [h, MarshalShort, File.WriteCached])

theorem fetch_ok_inv (fs : FS) (f : File) (resp? : Option Response) (c : Bool) (b : String)
    (h : (File.Fetch fs f resp? c).ret = FetchOutcome.ok b) :
    ∃ resp, resp? = some resp ∧ resp.Status < 400 ∧ c = true ∧
      b = serialize resp.Body ∧
      File.Fetch fs f resp? c =
        ⟨{ fetchUpdateMeta f resp with VersionLocal := (fetchUpdateMeta f resp).VersionRemote },
         fsWrite fs (pathJoin ".rshbulk" (fetchUpdateMeta f resp).Path) b,
         FetchOutcome.ok b⟩ := by
  cases resp? with
  | none => simp [File.Fetch] at h
  | some resp =>
    by_cases hst : 400 ≤ resp.Status
    · unfold File.Fetch at h
      simp [hst] at h
    · have hlt : resp.Status < 400 := by omega
      have heq := fetch_success_eq fs f resp c hlt
      cases c with
      | false =>
        rw [heq] at h
        simp at h
      | true =>
        rw [heq] at h
        simp at h
        subst h
        refine ⟨resp, rfl, hlt, rfl, rfl, ?_⟩
        rw [heq]
        simp

/-- C5: on an HTTP status of 400 or more, `Fetch` returns an error, every
field of the record is left unchanged (the whole record is returned as it
was), and nothing — in particular no reference copy — is written to the
filesystem. -/
theorem fetch_http_error_no_mutation (fs : FS) (f : File) (resp : Response) (c : Bool)
    (hs : 400 ≤ resp.Status) :
    File.Fetch fs f (some resp) c = ⟨f, fs, FetchOutcome.err ("error fetching " ++ f.URL)⟩ := by
  unfold File.Fetch
  simp [hs]

theorem fetch_http_error_no_mutation_witness :
    400 ≤ errorResp.Status ∧
    File.Fetch [] sampleFile (some errorResp) true
      = ⟨sampleFile, [], FetchOutcome.err ("error fetching " ++ sampleFile.URL)⟩ :=
  ⟨by decide, fetch_http_error_no_mutation [] sampleFile errorResp true (by decide)⟩

/-- C6: a `Fetch` that returns `ok b` leaves `VersionLocal` equal to
`VersionRemote`, stores exactly `b` — the canonical body bytes — as the
reference copy under `.rshbulk/<path>`, and does not touch the working
copy. -/
theorem fetch_success_postcondition (fs : FS) (f : File) (resp? : Option Response) (c : Bool)
    (b : String) (h : (File.Fetch fs f resp? c).ret = FetchOutcome.ok b) :
    (File.Fetch fs f resp? c).file.VersionLocal
      = (File.Fetch fs f resp? c).file.VersionRemote ∧
    fsRead (File.Fetch fs f resp? c).fs (pathJoin ".rshbulk" f.Path) = some b ∧
    (∃ resp, resp? = some resp ∧ b = serialize resp.Body) ∧
    fsRead (File.Fetch fs f resp? c).fs f.Path = fsRead fs f.Path := by
  obtain ⟨resp, hresp, hst, hc, hb, heq⟩ := fetch_ok_inv fs f resp? c b h
  obtain ⟨hPath, hURL, hVR, hVL, hHash⟩ := fetchUpdateMeta_frame f resp
  rw [heq]
  refine ⟨rfl, ?_, ⟨resp, hresp, hb⟩, ?_⟩
  · rw [hPath]
    exact fsRead_fsWrite_self fs _ b
  · rw [hPath]
    exact fsRead_fsWrite_ne fs _ f.Path b (pathJoin_rshbulk_ne f.Path)

theorem fetch_success_postcondition_witness :
    (File.Fetch [] sampleFile (some etagResp) true).ret
        = FetchOutcome.ok "\x7b\"id\":\"a1\"\x7d" ∧
    ((File.Fetch [] sampleFile (some etagResp) true).file.VersionLocal
        = (File.Fetch [] sampleFile (some etagResp) true).file.VersionRemote ∧
      fsRead (File.Fetch [] sampleFile (some etagResp) true).fs
          (pathJoin ".rshbulk" sampleFile.Path) = some "\x7b\"id\":\"a1\"\x7d" ∧
      (∃ resp, some etagResp = some resp ∧ "\x7b\"id\":\"a1\"\x7d" = serialize resp.Body) ∧
      fsRead (File.Fetch [] sampleFile (some etagResp) true).fs sampleFile.Path
        = fsRead [] sampleFile.Path) :=
  ⟨by decide,
    fetch_success_postcondition [] sampleFile (some etagResp) true "\x7b\"id\":\"a1\"\x7d"
      (by decide)⟩

/-- C9: when the HTTP fetch succeeds (status < 400) but the reference-copy
write fails, `Fetch` returns an error, the filesystem is untouched, and yet
the record has already been mutated: it equals the record of a fully
successful fetch, with `VersionLocal` set to `VersionRemote` and the
conditional headers adopted when present. -/
theorem fetch_cache_write_failure_mutates (fs : FS) (f : File) (resp : Response)
    (hs : resp.Status < 400) :
    (File.Fetch fs f (some resp) false).ret = FetchOutcome.err "cache write error" ∧
    (File.Fetch fs f (some resp) false).fs = fs ∧
    (File.Fetch fs f (some resp) false).file = (File.Fetch fs f (some resp) true).file ∧
    (File.Fetch fs f (some resp) false).file.VersionLocal = f.VersionRemote ∧
    (File.Fetch fs f (some resp) false).file.ETag
      = (if headerGet resp.Headers "Etag" ≠ "" then headerGet resp.Headers "Etag"
         else f.ETag) ∧
    (File.Fetch fs f (some resp) false).file.LastModified
      = (if headerGet resp.Headers "Last-Modified" ≠ "" then
          headerGet resp.Headers "Last-Modified"
         else f.LastModified) := by
  have heqf := fetch_success_eq fs f resp false hs
  have heqt := fetch_success_eq fs f resp true hs
  obtain ⟨hPath, hURL, hVR, hVL, hHash⟩ := fetchUpdateMeta_frame f resp
  rw [heqf, heqt]
  refine ⟨rfl, rfl, rfl, hVR, ?_, ?_⟩
  · exact fetchUpdateMeta_ETag f resp
  · exact fetchUpdateMeta_LastModified f resp

theorem fetch_cache_write_failure_mutates_witness :
    etagResp.Status < 400 ∧
    ((File.Fetch [] sampleFile (some etagResp) false).ret
        = FetchOutcome.err "cache write error" ∧
      (File.Fetch [] sampleFile (some etagResp) false).fs = [] ∧
      (File.Fetch [] sampleFile (some etagResp) false).file
        = (File.Fetch [] sampleFile (some etagResp) true).file ∧
      (File.Fetch [] sampleFile (some etagResp) false).file.VersionLocal
        = sampleFile.VersionRemote ∧
      (File.Fetch [] sampleFile (some etagResp) false).file.ETag
        = (if headerGet etagResp.Headers "Etag" ≠ "" then headerGet etagResp.Headers "Etag"
           else sampleFile.ETag) ∧
      (File.Fetch [] sampleFile (some etagResp) false).file.LastModified
        = (if headerGet etagResp.Headers "Last-Modified" ≠ "" then
            headerGet etagResp.Headers "Last-Modified"
           else sampleFile.LastModified)) ∧
    (File.Fetch [] sampleFile (some etagResp) false).file ≠ sampleFile :=
  ⟨by decide, fetch_cache_write_failure_mutates [] sampleFile etagResp (by decide), by decide⟩

/-- C10: a successful `Fetch` whose response carries an empty (absent) Etag
or Last-Modified header preserves the previously stored `ETag` or
`LastModified` respectively, and never modifies `Path`, `URL`,
`VersionRemote` or `Hash`. -/
theorem fetch_preserves_absent_headers (fs : FS) (f : File) (resp : Response) (c : Bool)
    (b : String) (h : (File.Fetch fs f (some resp) c).ret = FetchOutcome.ok b) :
    (headerGet resp.Headers "Etag" = "" →
      (File.Fetch fs f (some resp) c).file.ETag = f.ETag) ∧
    (headerGet resp.Headers "Last-Modified" = "" →
      (File.Fetch fs f (some resp) c).file.LastModified = f.LastModified) ∧
    (File.Fetch fs f (some resp) c).file.Path = f.Path ∧
    (File.Fetch fs f (some resp) c).file.URL = f.URL ∧
    (File.Fetch fs f (some resp) c).file.VersionRemote = f.VersionRemote ∧
    (File.Fetch fs f (some resp) c).file.Hash = f.Hash := by
  obtain ⟨resp', hresp, hst, hc, hb, heq⟩ := fetch_ok_inv fs f (some resp) c b h
  injection hresp with hresp'
  subst hresp'
  obtain ⟨hPath, hURL, hVR, hVL, hHash⟩ := fetchUpdateMeta_frame f resp
  rw [heq]
  refine ⟨?_, ?_, hPath, hURL, hVR, hHash⟩
  · intro he
    show (fetchUpdateMeta f resp).ETag = f.ETag
    rw [fetchUpdateMeta_ETag]
    simp [he]
  · intro hl
    show (fetchUpdateMeta f resp).LastModified = f.LastModified
    rw [fetchUpdateMeta_LastModified]
    simp [hl]

theorem fetch_preserves_absent_headers_witness :
    (File.Fetch [] sampleFile (some plainResp) true).ret
        = FetchOutcome.ok "\x7b\"id\":\"a1\"\x7d" ∧
    ((headerGet plainResp.Headers "Etag" = "" →
        (File.Fetch [] sampleFile (some plainResp) true).file.ETag = sampleFile.ETag) ∧
      (headerGet plainResp.Headers "Last-Modified" = "" →
        (File.Fetch [] sampleFile (some plainResp) true).file.LastModified
          = sampleFile.LastModified) ∧
      (File.Fetch [] sampleFile (some plainResp) true).file.Path = sampleFile.Path ∧
      (File.Fetch [] sampleFile (some plainResp) true).file.URL = sampleFile.URL ∧
      (File.Fetch [] sampleFile (some plainResp) true).file.VersionRemote
        = sampleFile.VersionRemote ∧
      (File.Fetch [] sampleFile (some plainResp) true).file.Hash = sampleFile.Hash) :=
  ⟨by decide,
    fetch_preserves_absent_headers [] sampleFile plainResp true "\x7b\"id\":\"a1\"\x7d"
      (by decide)⟩

/-- C3: refuted by the code. With no describedby link and a body that is a
map carrying a string-valued `$schema` field, the reflect-based fallback
never fires: `MapIndex` on a decoded `map[string]any` yields an
Interface-kind value, so the String-kind test fails and `Schema` keeps its
prior value (here "") instead of receiving the field's value — the fetch
itself succeeds. -/
theorem schema_fallback_not_applied :
    mapIndexKind [("$schema", JSON.str "https://example.com/s.json")] "$schema"
      = GoKind.interfaceKind ∧
    linksGet schemaResp.Links "describedby" = [] ∧
    (File.Fetch [] freshFile (some schemaResp) true).file.Schema = "" ∧
    (File.Fetch [] freshFile (some schemaResp) true).file.Schema
      ≠ "https://example.com/s.json" ∧
    (File.Fetch [] freshFile (some schemaResp) true).ret
      = FetchOutcome.ok "\x7b\"$schema\":\"https://example.com/s.json\"\x7d" := by
  decide

/-- C8: `Reset` fails exactly when no reference copy exists under
`<metaDir>/<path>` (returning the read error and leaving record and
filesystem untouched, since the error path returns before any write); when
the reference copy exists, it returns precisely `Write` applied to the
cached bytes, which stores those exact bytes at the working-copy path and
recomputes the hash. -/
theorem reset_iff_reference_copy (fs : FS) (f : File) :
    ((∃ msg, File.Reset fs f = Except.error msg) ↔
        fsRead fs (pathJoin metaDir f.Path) = none) ∧
    ∀ cached, fsRead fs (pathJoin metaDir f.Path) = some cached →
      File.Reset fs f = Except.ok (File.Write fs f cached) ∧
      fsRead (File.Write fs f cached).2 (File.Write fs f cached).1.Path = some cached ∧
      (File.Write fs f cached).1.Hash = hash cached := by
  cases hr : fsRead fs (pathJoin metaDir f.Path) with
  | none =>
    refine ⟨⟨fun _ => rfl, fun _ => ⟨"file does not exist", ?_⟩⟩, fun cached hc => ?_⟩
    · unfold File.Reset
      rw [hr]
    · exact Option.noConfusion hc
  | some cached0 =>
    refine ⟨⟨?_, fun hn => Option.noConfusion hn⟩, fun cached hc => ?_⟩
    · rintro ⟨msg, hmsg⟩
      unfold File.Reset at hmsg
      rw [hr] at hmsg
      simp at hmsg
    · injection hc with hc'
      subst hc'
      refine ⟨?_, fsRead_fsWrite_self fs f.Path _, rfl⟩
      unfold File.Reset
      rw [hr]

theorem reset_iff_reference_copy_witness :
    fsRead [(pathJoin metaDir "p.json", "\x7b\x7d")] (pathJoin metaDir resetFile.Path)
        = some "\x7b\x7d" ∧
    (File.Reset [(pathJoin metaDir "p.json", "\x7b\x7d")] resetFile
        = Except.ok (File.Write [(pathJoin metaDir "p.json", "\x7b\x7d")] resetFile "\x7b\x7d") ∧
      fsRead (File.Write [(pathJoin metaDir "p.json", "\x7b\x7d")] resetFile "\x7b\x7d").2
          (File.Write [(pathJoin metaDir "p.json", "\x7b\x7d")] resetFile "\x7b\x7d").1.Path
        = some "\x7b\x7d" ∧
      (File.Write [(pathJoin metaDir "p.json", "\x7b\x7d")] resetFile "\x7b\x7d").1.Hash
        = hash "\x7b\x7d") :=
  ⟨by decide,
    (reset_iff_reference_copy [(pathJoin metaDir "p.json", "\x7b\x7d")] resetFile).2
      "\x7b\x7d" (by decide)⟩
